import Mathlib

/-!
# Verification of the GewitterGefahr polygon / grid-mapping subsystem

Shallow embedding of the polygon-geometry and grid-mapping core of the
GewitterGefahr repository (`gewittergefahr/gg_utils/polygons.py` and
`gewittergefahr/gg_io/radar_io.py`).

Coordinates are exact rationals.  A NaN entry of a numpy coordinate array is
modelled as `none : Option ℚ`; the code uses NaN purely as a ring-separator
sentinel, so this is faithful to every use the spec describes.

`radar_io.py` is present in the sources and its two coordinate-conversion
functions are translated directly.  `polygons.py`, `rounder.py`,
`lng_conversion.py` and `error_checking.py` are not among the available
sources (only `polygons_test.py`, their unit tests, is); definitions for
those are modelled from the specification, pinned where possible by the
reference fixtures of `polygons_test.py`, and are marked
`Modelled from the spec:` in their doc comments.
-/

namespace GewitterGefahr

/-- A coordinate entry of a numpy array: `none` models NaN. -/
abbrev Coord := Option ℚ

/-! ## Ring separation on NaN sentinels (spec section 4.4) -/

/-- Modelled from the spec: the splitting step of
`polygons.separate_exterior_and_holes` (not among the sources): a composite
vertex array is split at NaN-sentinel positions into its rings, in order of
appearance. -/
def splitOnNone {α : Type} : List (Option α) → List (List α)
  | [] => [[]]
  | none :: rest => [] :: splitOnNone rest
  | some a :: rest =>
    match splitOnNone rest with
    | [] => [[a]]
    | r :: rs => (a :: r) :: rs

/-- Modelled from the spec: the concatenation step of
`polygons.merge_exterior_and_holes` (not among the sources): rings are
concatenated with exactly one NaN sentinel between each adjacent pair of
rings, none at the very start or end. -/
def mergeRings {α : Type} : List (List α) → List (Option α)
  | [] => []
  | [r] => r.map some
  | r :: rs => r.map some ++ none :: mergeRings rs

/-- Result type of `separate_exterior_and_holes`: the vertex dictionary
holding one exterior ring and a list of hole rings. -/
structure VertexDict where
  exterior_x : List ℚ
  exterior_y : List ℚ
  hole_x_list : List (List ℚ)
  hole_y_list : List (List ℚ)
deriving DecidableEq

/-- Modelled from the spec: `polygons.separate_exterior_and_holes` (not among
the sources) splits both coordinate arrays on the NaN sentinel positions; the
first ring found is the exterior and all subsequent rings are holes, in the
order found. -/
def separate_exterior_and_holes (vertex_x_coords vertex_y_coords : List Coord) :
    VertexDict :=
  let ringsX := splitOnNone vertex_x_coords
  let ringsY := splitOnNone vertex_y_coords
  { exterior_x := ringsX.headD []
    exterior_y := ringsY.headD []
    hole_x_list := ringsX.tail
    hole_y_list := ringsY.tail }

/-- Modelled from the spec: `polygons.merge_exterior_and_holes` (not among
the sources) concatenates the exterior then the holes, inserting one NaN pair
between each adjacent pair of rings. -/
def merge_exterior_and_holes (exterior_x_coords exterior_y_coords : List ℚ)
    (hole_x_coords_list hole_y_coords_list : List (List ℚ)) :
    List Coord × List Coord :=
  (mergeRings (exterior_x_coords :: hole_x_coords_list),
   mergeRings (exterior_y_coords :: hole_y_coords_list))

/-- No two adjacent entries of the array are both NaN. -/
def noAdjacentNones {α : Type} : List (Option α) → Bool
  | none :: none :: _ => false
  | _ :: rest => noAdjacentNones rest
  | [] => true

/-- A valid composite vertex array: nonempty, NaN never first or last, and no
two NaN sentinels adjacent (spec section 3, vertex-sequence invariant). -/
def isValidComposite {α : Type} (l : List (Option α)) : Bool :=
  match l with
  | [] => false
  | a :: _ => a.isSome && (l.getLastD none).isSome && noAdjacentNones l

theorem splitOnNone_ne_nil {α : Type} (l : List (Option α)) :
    splitOnNone l ≠ [] := by
  induction l with
  | nil => simp [splitOnNone]
  | cons a rest ih =>
    cases a with
    | none => simp [splitOnNone]
    | some v =>
      simp only [splitOnNone]
      cases h : splitOnNone rest with
      | nil => simp
      | cons r rs => simp

theorem mergeRings_splitOnNone {α : Type} (l : List (Option α)) :
    mergeRings (splitOnNone l) = l := by
  induction l with
  | nil => rfl
  | cons a rest ih =>
    cases a with
    | none =>
      obtain ⟨r, rs, h⟩ := List.exists_cons_of_ne_nil (splitOnNone_ne_nil rest)
      simp only [splitOnNone, h, mergeRings, List.map_nil, List.nil_append]
      rw [← h, ih]
    | some v =>
      cases h : splitOnNone rest with
      | nil => exact absurd h (splitOnNone_ne_nil rest)
      | cons r rs =>
        cases rs with
        | nil =>
          simp only [splitOnNone, h, mergeRings, List.map_cons]
          have hrest : mergeRings (splitOnNone rest) = rest := ih
          rw [h] at hrest
          simp only [mergeRings] at hrest
          rw [hrest]
        | cons r' rs' =>
          simp only [splitOnNone, h, mergeRings, List.map_cons, List.cons_append]
          have hrest : mergeRings (splitOnNone rest) = rest := ih
          rw [h] at hrest
          simp only [mergeRings] at hrest
          rw [hrest]

theorem headD_cons_tail {α : Type} (l : List α) (d : α) (h : l ≠ []) :
    l.headD d :: l.tail = l := by
  cases l with
  | nil => exact absurd rfl h
  | cons a t => rfl

/-- C1: applying `separate_exterior_and_holes` and then
`merge_exterior_and_holes` to any valid composite vertex-coordinate pair
(at least one ring, single NaN sentinel pairs strictly between rings, never
first, last or adjacent) reproduces the original arrays exactly, NaN
positions included. -/
theorem C1_separate_merge_roundtrip (xs ys : List Coord)
    (hx : isValidComposite xs = true) (hy : isValidComposite ys = true)
    (hlen : xs.length = ys.length)
    (haligned : (xs.zip ys).all (fun p => p.1.isSome == p.2.isSome) = true) :
    merge_exterior_and_holes
      (separate_exterior_and_holes xs ys).exterior_x
      (separate_exterior_and_holes xs ys).exterior_y
      (separate_exterior_and_holes xs ys).hole_x_list
      (separate_exterior_and_holes xs ys).hole_y_list = (xs, ys) := by
  simp only [separate_exterior_and_holes, merge_exterior_and_holes]
  rw [headD_cons_tail _ _ (splitOnNone_ne_nil xs),
      headD_cons_tail _ _ (splitOnNone_ne_nil ys),
      mergeRings_splitOnNone, mergeRings_splitOnNone]

/-- C1 witness: the round trip at the reference fixture of
`polygons_test.py` (unit-square exterior with two square holes, sentinels at
positions 5 and 11). -/
theorem C1_separate_merge_roundtrip_witness :
    merge_exterior_and_holes
      (separate_exterior_and_holes
        [some 0, some 0, some 10, some 10, some 0, none,
         some 2, some 2, some 4, some 4, some 2, none,
         some 6, some 6, some 8, some 8, some 6]
        [some 0, some 10, some 10, some 0, some 0, none,
         some 2, some 4, some 4, some 2, some 2, none,
         some 6, some 8, some 8, some 6, some 6]).exterior_x
      (separate_exterior_and_holes
        [some 0, some 0, some 10, some 10, some 0, none,
         some 2, some 2, some 4, some 4, some 2, none,
         some 6, some 6, some 8, some 8, some 6]
        [some 0, some 10, some 10, some 0, some 0, none,
         some 2, some 4, some 4, some 2, some 2, none,
         some 6, some 8, some 8, some 6, some 6]).exterior_y
      (separate_exterior_and_holes
        [some 0, some 0, some 10, some 10, some 0, none,
         some 2, some 2, some 4, some 4, some 2, none,
         some 6, some 6, some 8, some 8, some 6]
        [some 0, some 10, some 10, some 0, some 0, none,
         some 2, some 4, some 4, some 2, some 2, none,
         some 6, some 8, some 8, some 6, some 6]).hole_x_list
      (separate_exterior_and_holes
        [some 0, some 0, some 10, some 10, some 0, none,
         some 2, some 2, some 4, some 4, some 2, none,
         some 6, some 6, some 8, some 8, some 6]
        [some 0, some 10, some 10, some 0, some 0, none,
         some 2, some 4, some 4, some 2, some 2, none,
         some 6, some 8, some 8, some 6, some 6]).hole_y_list =
    ([some 0, some 0, some 10, some 10, some 0, none,
      some 2, some 2, some 4, some 4, some 2, none,
      some 6, some 6, some 8, some 8, some 6],
     [some 0, some 10, some 10, some 0, some 0, none,
      some 2, some 4, some 4, some 2, some 2, none,
      some 6, some 8, some 8, some 6, some 6]) :=
  C1_separate_merge_roundtrip _ _ (by decide) (by decide) (by decide) (by decide)

/-! ## Grid-index coordinate mapping (spec section 4.1, `radar_io.py`) -/

/-- Modelled from the spec: `rounder.round_to_nearest` (not among the
sources) rounds to the nearest multiple of the rounding base. -/
def round_to_nearest (input_value rounding_base : ℚ) : ℚ :=
  rounding_base * round (input_value / rounding_base)

/-- Modelled from the spec: `lng_conversion.convert_lng_positive_in_west`
(not among the sources) renormalizes a longitude into the positive-in-west
0 to 360 convention, mapping a negative longitude to itself plus 360. -/
def convert_lng_positive_in_west (longitude_deg : ℚ) : ℚ :=
  if longitude_deg < 0 then longitude_deg + 360 else longitude_deg

/-- Modelled from the spec: `error_checking.assert_is_geq_numpy_array` with
`allow_nan=True` (not among the sources): every non-NaN entry is at least
the bound. -/
def is_geq_allow_nan (l : List Coord) (bound : ℚ) : Bool :=
  l.all fun x =>
    match x with
    | none => true
    | some v => bound ≤ v

/-- Modelled from the spec: `error_checking.assert_is_valid_latitude`
(not among the sources): a latitude is valid when it lies in `[-90, 90]`. -/
def is_valid_latitude (latitude_deg : ℚ) : Bool :=
  -90 ≤ latitude_deg && latitude_deg ≤ 90

/-- Modelled from the spec: `error_checking.assert_is_valid_lat_numpy_array`
with `allow_nan=True` (not among the sources). -/
def is_valid_lat_allow_nan (l : List Coord) : Bool :=
  l.all fun x =>
    match x with
    | none => true
    | some v => is_valid_latitude v

/-- `radar_io.rowcol_to_latlng`: converts radar coordinates from row-column
to lat-long.  `none` models a failed precondition check (a raised error);
NaN coordinate entries are modelled as `none : Coord` and propagate through
the conversion per spec section 4.1. -/
def rowcol_to_latlng (grid_rows grid_columns : List Coord)
    (nw_grid_point_lat_deg nw_grid_point_lng_deg
     lat_spacing_deg lng_spacing_deg : ℚ) :
    Option (List Coord × List Coord) :=
  if is_geq_allow_nan grid_rows (-(1/2)) = false then none
  else if grid_columns.length ≠ grid_rows.length then none
  else if is_geq_allow_nan grid_columns (-(1/2)) = false then none
  else if is_valid_latitude nw_grid_point_lat_deg = false then none
  else if lat_spacing_deg ≤ 0 then none
  else if lng_spacing_deg ≤ 0 then none
  else
    let nw_lng := convert_lng_positive_in_west nw_grid_point_lng_deg
    let latitudes_deg := grid_rows.map fun r =>
      r.map fun v =>
        round_to_nearest (nw_grid_point_lat_deg - lat_spacing_deg * v)
          (lat_spacing_deg / 2)
    let longitudes_deg := grid_columns.map fun c =>
      c.map fun v =>
        round_to_nearest (nw_lng + lng_spacing_deg * v) (lng_spacing_deg / 2)
    some (latitudes_deg,
          longitudes_deg.map (Option.map convert_lng_positive_in_west))

/-- `radar_io.latlng_to_rowcol`: converts radar coordinates from lat-long to
row-column, rounding to the nearest half-integer. -/
def latlng_to_rowcol (latitudes_deg longitudes_deg : List Coord)
    (nw_grid_point_lat_deg nw_grid_point_lng_deg
     lat_spacing_deg lng_spacing_deg : ℚ) :
    Option (List Coord × List Coord) :=
  if is_valid_lat_allow_nan latitudes_deg = false then none
  else if longitudes_deg.length ≠ latitudes_deg.length then none
  else if is_valid_latitude nw_grid_point_lat_deg = false then none
  else if lat_spacing_deg ≤ 0 then none
  else if lng_spacing_deg ≤ 0 then none
  else
    let lngs := longitudes_deg.map (Option.map convert_lng_positive_in_west)
    let nw_lng := convert_lng_positive_in_west nw_grid_point_lng_deg
    let grid_columns := lngs.map fun c =>
      c.map fun v => round_to_nearest ((v - nw_lng) / lng_spacing_deg) (1/2)
    let grid_rows := latitudes_deg.map fun r =>
      r.map fun v =>
        round_to_nearest ((nw_grid_point_lat_deg - v) / lat_spacing_deg) (1/2)
    some (grid_rows, grid_columns)

theorem convert_lng_of_nonneg {x : ℚ} (h : 0 ≤ x) :
    convert_lng_positive_in_west x = x := by
  simp [convert_lng_positive_in_west, not_lt.mpr h]

theorem abs_round_to_nearest_sub (x b : ℚ) (hb : 0 < b) :
    |round_to_nearest x b - x| ≤ b / 2 := by
  have hbne : b ≠ 0 := ne_of_gt hb
  have hx : round_to_nearest x b - x = b * ((round (x / b) : ℚ) - x / b) := by
    rw [round_to_nearest, mul_sub, mul_div_cancel₀ _ hbne]
  have h : |(round (x / b) : ℚ) - x / b| ≤ 1 / 2 := by
    rw [abs_sub_comm]; exact abs_sub_round (x / b)
  rw [hx, abs_mul, abs_of_pos hb]
  calc b * |(round (x / b) : ℚ) - x / b| ≤ b * (1 / 2) :=
        mul_le_mul_of_nonneg_left h (le_of_lt hb)
    _ = b / 2 := by ring

theorem round_to_nearest_half_bound (x tv s : ℚ) (hs : 0 < s)
    (happrox : |x - s * tv| ≤ s / 4) :
    |round_to_nearest (x / s) (1 / 2) - tv| ≤ 1 / 2 := by
  have h1 : |x / s - tv| ≤ 1 / 4 := by
    have hx : x / s - tv = (x - s * tv) / s := by field_simp
    rw [hx, abs_div, abs_of_pos hs, div_le_iff₀ hs]
    linarith
  have h2 : |round_to_nearest (x / s) (1 / 2) - x / s| ≤ 1 / 4 := by
    have := abs_round_to_nearest_sub (x / s) (1 / 2) (by norm_num)
    linarith
  calc |round_to_nearest (x / s) (1 / 2) - tv|
      ≤ |round_to_nearest (x / s) (1 / 2) - x / s| + |x / s - tv| :=
        abs_sub_le _ _ _
    _ ≤ 1 / 4 + 1 / 4 := add_le_add h2 h1
    _ = 1 / 2 := by norm_num

theorem rowcol_to_latlng_eq (grid_rows grid_columns : List Coord)
    (lat0 lng0 s t : ℚ)
    (h1 : is_geq_allow_nan grid_rows (-(1/2)) = true)
    (h2 : grid_columns.length = grid_rows.length)
    (h3 : is_geq_allow_nan grid_columns (-(1/2)) = true)
    (h4 : is_valid_latitude lat0 = true)
    (h5 : 0 < s) (h6 : 0 < t) :
    rowcol_to_latlng grid_rows grid_columns lat0 lng0 s t =
      some (grid_rows.map (Option.map fun v =>
              round_to_nearest (lat0 - s * v) (s / 2)),
            grid_columns.map (Option.map fun v =>
              convert_lng_positive_in_west
                (round_to_nearest
                  (convert_lng_positive_in_west lng0 + t * v) (t / 2)))) := by
  rw [rowcol_to_latlng]
  rw [if_neg (by simp only [h1, Bool.true_eq_false, not_false_eq_true]),
      if_neg (by simp [h2]),
      if_neg (by simp only [h3, Bool.true_eq_false, not_false_eq_true]),
      if_neg (by simp only [h4, Bool.true_eq_false, not_false_eq_true]),
      if_neg (not_le.mpr h5), if_neg (not_le.mpr h6)]
  simp [List.map_map, Function.comp_def, Option.map_map]

theorem latlng_to_rowcol_eq (lats lngs : List Coord) (lat0 lng0 s t : ℚ)
    (h1 : is_valid_lat_allow_nan lats = true)
    (h2 : lngs.length = lats.length)
    (h4 : is_valid_latitude lat0 = true)
    (h5 : 0 < s) (h6 : 0 < t) :
    latlng_to_rowcol lats lngs lat0 lng0 s t =
      some (lats.map (Option.map fun v =>
              round_to_nearest ((lat0 - v) / s) (1/2)),
            lngs.map (Option.map fun v =>
              round_to_nearest
                ((convert_lng_positive_in_west v -
                  convert_lng_positive_in_west lng0) / t) (1/2))) := by
  rw [latlng_to_rowcol]
  rw [if_neg (by simp only [h1, Bool.true_eq_false, not_false_eq_true]),
      if_neg (by simp [h2]),
      if_neg (by simp only [h4, Bool.true_eq_false, not_false_eq_true]),
      if_neg (not_le.mpr h5), if_neg (not_le.mpr h6)]
  simp [List.map_map, Function.comp_def, Option.map_map]

/-- C2: on valid inputs (entries at least -0.5, equal lengths, valid origin
latitude, normalized origin longitude, positive spacings),
`rowcol_to_latlng` returns latitudes `origin_lat - lat_spacing * row` rounded
to the nearest half of `lat_spacing`, and longitudes
`origin_lng + lng_spacing * column` rounded to the nearest half of
`lng_spacing` and then renormalized to the positive-in-west convention. -/
theorem C2_rowcol_to_latlng_formula (rows cols : List ℚ) (lat0 lng0 s t : ℚ)
    (hrow : ∀ r ∈ rows, -(1/2) ≤ r) (hcol : ∀ c ∈ cols, -(1/2) ≤ c)
    (hlen : cols.length = rows.length)
    (hlat : -90 ≤ lat0 ∧ lat0 ≤ 90) (hlng : 0 ≤ lng0)
    (hs : 0 < s) (ht : 0 < t) :
    rowcol_to_latlng (rows.map some) (cols.map some) lat0 lng0 s t =
      some (rows.map fun r =>
              some (round_to_nearest (lat0 - s * r) (s / 2)),
            cols.map fun c =>
              some (convert_lng_positive_in_west
                (round_to_nearest (lng0 + t * c) (t / 2)))) := by
  rw [rowcol_to_latlng_eq]
  · rw [convert_lng_of_nonneg hlng]
    simp [List.map_map, Function.comp_def]
  · simp only [is_geq_allow_nan, List.all_eq_true]
    intro x hx
    obtain ⟨r, hr, rfl⟩ := List.mem_map.mp hx
    simpa using hrow r hr
  · simpa using hlen
  · simp only [is_geq_allow_nan, List.all_eq_true]
    intro x hx
    obtain ⟨c, hc, rfl⟩ := List.mem_map.mp hx
    simpa using hcol c hc
  · simp [is_valid_latitude, hlat.1, hlat.2]
  · exact hs
  · exact ht

/-- C2 witness: the formula at a concrete valid input (one row 0 and one
column 0, origin at latitude 50 and longitude 250, unit spacings). -/
theorem C2_rowcol_to_latlng_formula_witness :
    rowcol_to_latlng ([0].map some) ([0].map some) 50 250 1 1 =
      some ([0].map fun r : ℚ =>
              some (round_to_nearest (50 - 1 * r) (1 / 2)),
            [0].map fun c : ℚ =>
              some (convert_lng_positive_in_west
                (round_to_nearest (250 + 1 * c) (1 / 2)))) :=
  C2_rowcol_to_latlng_formula [0] [0] 50 250 1 1
    (by intro r hr; simp at hr; simp [hr])
    (by intro c hc; simp at hc; simp [hc])
    rfl (by norm_num) (by norm_num) one_pos one_pos

/-- One-point composition of the two radar-grid conversions, with shared grid
parameters: row-column to lat-long, then back to row-column. -/
def rowcol_latlng_roundtrip (r c lat0 lng0 s t : ℚ) :
    Option (List Coord × List Coord) :=
  (rowcol_to_latlng [some r] [some c] lat0 lng0 s t).bind fun p =>
    latlng_to_rowcol p.1 p.2 lat0 lng0 s t

set_option maxRecDepth 4000 in
/-- C3 counterexample: with origin longitude 0 (a normalized value), unit
spacings and column index -0.5, the longitude computed by `rowcol_to_latlng`
wraps to 359.5 through the positive-in-west renormalization, and
`latlng_to_rowcol` then returns column 359.5, which is 360 away from the
original column -0.5, far beyond the half-spacing rounding tolerance. -/
theorem C3_rowcol_latlng_roundtrip_cex :
    rowcol_latlng_roundtrip 0 (-(1/2)) 0 0 1 1 =
      some ([some 0], [some (719/2)]) ∧
    ¬ |(719/2 : ℚ) - -(1/2)| ≤ 1/2 := by
  constructor
  · with_unfolding_all decide
  · with_unfolding_all decide

/-- C3 (amended): the round trip through `rowcol_to_latlng` and
`latlng_to_rowcol` recovers the original row and column to within 1/2 (the
half-spacing rounding tolerance in index units), provided additionally that
the intermediate rounded longitude does not wrap below 0 through the
positive-in-west renormalization and the intermediate rounded latitude stays
inside [-90, 90] (otherwise the second conversion raises or the longitude
jumps by 360, as the counterexample shows). -/
theorem C3_rowcol_latlng_roundtrip_amended (r c lat0 lng0 s t : ℚ)
    (hr : -(1/2) ≤ r) (hc : -(1/2) ≤ c)
    (hlat0 : -90 ≤ lat0 ∧ lat0 ≤ 90) (hlng0 : 0 ≤ lng0)
    (hs : 0 < s) (ht : 0 < t)
    (hlat_ok : -90 ≤ round_to_nearest (lat0 - s * r) (s / 2) ∧
               round_to_nearest (lat0 - s * r) (s / 2) ≤ 90)
    (hlng_ok : 0 ≤ round_to_nearest (lng0 + t * c) (t / 2)) :
    ∃ r' c' : ℚ,
      rowcol_latlng_roundtrip r c lat0 lng0 s t =
        some ([some r'], [some c']) ∧
      |r' - r| ≤ 1/2 ∧ |c' - c| ≤ 1/2 := by
  have step1 : rowcol_to_latlng [some r] [some c] lat0 lng0 s t =
      some ([some (round_to_nearest (lat0 - s * r) (s / 2))],
            [some (round_to_nearest (lng0 + t * c) (t / 2))]) := by
    rw [rowcol_to_latlng_eq [some r] [some c] lat0 lng0 s t
      (by simp [is_geq_allow_nan]; linarith) rfl
      (by simp [is_geq_allow_nan]; linarith)
      (by simp [is_valid_latitude, hlat0.1, hlat0.2]) hs ht]
    rw [convert_lng_of_nonneg hlng0]
    simp [convert_lng_of_nonneg hlng_ok]
  have step2 : latlng_to_rowcol
      [some (round_to_nearest (lat0 - s * r) (s / 2))]
      [some (round_to_nearest (lng0 + t * c) (t / 2))] lat0 lng0 s t =
      some ([some (round_to_nearest
               ((lat0 - round_to_nearest (lat0 - s * r) (s / 2)) / s) (1/2))],
            [some (round_to_nearest
               ((round_to_nearest (lng0 + t * c) (t / 2) - lng0) / t)
               (1/2))]) := by
    rw [latlng_to_rowcol_eq
      [some (round_to_nearest (lat0 - s * r) (s / 2))]
      [some (round_to_nearest (lng0 + t * c) (t / 2))] lat0 lng0 s t
      (by simp only [is_valid_lat_allow_nan, List.all_cons, List.all_nil,
            Bool.and_true, is_valid_latitude]
          simp only [Bool.and_eq_true, decide_eq_true_eq]
          exact ⟨hlat_ok.1, hlat_ok.2⟩) rfl
      (by simp [is_valid_latitude, hlat0.1, hlat0.2]) hs ht]
    rw [convert_lng_of_nonneg hlng0]
    simp [convert_lng_of_nonneg hlng_ok]
  refine ⟨round_to_nearest
      ((lat0 - round_to_nearest (lat0 - s * r) (s / 2)) / s) (1/2),
    round_to_nearest
      ((round_to_nearest (lng0 + t * c) (t / 2) - lng0) / t) (1/2),
    ?_, ?_, ?_⟩
  · rw [rowcol_latlng_roundtrip, step1]
    exact step2
  · apply round_to_nearest_half_bound _ _ _ hs
    have h := abs_round_to_nearest_sub (lat0 - s * r) (s / 2)
      (by positivity)
    rw [abs_sub_comm] at h
    have : lat0 - round_to_nearest (lat0 - s * r) (s / 2) - s * r =
        lat0 - s * r - round_to_nearest (lat0 - s * r) (s / 2) := by ring
    rw [this]
    linarith
  · apply round_to_nearest_half_bound _ _ _ ht
    have h := abs_round_to_nearest_sub (lng0 + t * c) (t / 2)
      (by positivity)
    have : round_to_nearest (lng0 + t * c) (t / 2) - lng0 - t * c =
        round_to_nearest (lng0 + t * c) (t / 2) - (lng0 + t * c) := by ring
    rw [this]
    linarith

/-- C3 witness for the amended theorem: the round trip at row 2.5, column
3.5, origin (50, 250), spacings 1/2. -/
theorem C3_rowcol_latlng_roundtrip_amended_witness :
    ∃ r' c' : ℚ,
      rowcol_latlng_roundtrip (5/2) (7/2) 50 250 (1/2) (1/2) =
        some ([some r'], [some c']) ∧
      |r' - 5/2| ≤ 1/2 ∧ |c' - 7/2| ≤ 1/2 :=
  C3_rowcol_latlng_roundtrip_amended (5/2) (7/2) 50 250 (1/2) (1/2)
    (by norm_num) (by norm_num) (by norm_num) (by norm_num)
    (by norm_num) (by norm_num)
    (by constructor <;> · rw [round_to_nearest, round_eq] <;> norm_num)
    (by rw [round_to_nearest, round_eq]; norm_num)

theorem getD_map_optionMap (l : List Coord) (f : ℚ → ℚ) (i : ℕ) :
    (l.map (Option.map f)).getD i none = Option.map f (l.getD i none) := by
  induction l generalizing i with
  | nil => simp
  | cons a t ih =>
    cases i with
    | zero => simp
    | succ n => simpa using ih n

/-- C4: NaN entries (modelled as `none`) in the coordinate arrays propagate
to `none` entries at the corresponding positions of the outputs of both
`rowcol_to_latlng` and `latlng_to_rowcol`, and both calls return normally
(`some`, not a raised error) when all other arguments satisfy their
preconditions. -/
theorem C4_nan_propagation (rows cols lats lngs : List Coord)
    (lat0 lng0 s t : ℚ)
    (h1 : is_geq_allow_nan rows (-(1/2)) = true)
    (h2 : cols.length = rows.length)
    (h3 : is_geq_allow_nan cols (-(1/2)) = true)
    (h4 : is_valid_lat_allow_nan lats = true)
    (h5 : lngs.length = lats.length)
    (h6 : is_valid_latitude lat0 = true)
    (hs : 0 < s) (ht : 0 < t) :
    (∃ la lo, rowcol_to_latlng rows cols lat0 lng0 s t = some (la, lo) ∧
      ∀ i : ℕ, (la.getD i none).isSome = (rows.getD i none).isSome ∧
               (lo.getD i none).isSome = (cols.getD i none).isSome) ∧
    (∃ ro co, latlng_to_rowcol lats lngs lat0 lng0 s t = some (ro, co) ∧
      ∀ i : ℕ, (ro.getD i none).isSome = (lats.getD i none).isSome ∧
               (co.getD i none).isSome = (lngs.getD i none).isSome) := by
  constructor
  · refine ⟨_, _, rowcol_to_latlng_eq rows cols lat0 lng0 s t
      h1 h2 h3 h6 hs ht, ?_⟩
    intro i
    constructor <;> · rw [getD_map_optionMap]; cases (rows.getD i none) <;>
      cases (cols.getD i none) <;> simp
  · refine ⟨_, _, latlng_to_rowcol_eq lats lngs lat0 lng0 s t
      h4 h5 h6 hs ht, ?_⟩
    intro i
    constructor <;> · rw [getD_map_optionMap]; cases (lats.getD i none) <;>
      cases (lngs.getD i none) <;> simp

/-- C4 witness: both conversions at concrete inputs containing NaN
(`none`) entries while every other precondition holds. -/
theorem C4_nan_propagation_witness :
    (∃ la lo, rowcol_to_latlng [some 0, none] [none, some 1] 50 250 1 1 =
        some (la, lo) ∧
      ∀ i : ℕ,
        (la.getD i none).isSome =
          (([some 0, none] : List Coord).getD i none).isSome ∧
        (lo.getD i none).isSome =
          (([none, some 1] : List Coord).getD i none).isSome) ∧
    (∃ ro co, latlng_to_rowcol [none, some 50] [some 250, none] 50 250 1 1 =
        some (ro, co) ∧
      ∀ i : ℕ,
        (ro.getD i none).isSome =
          (([none, some 50] : List Coord).getD i none).isSome ∧
        (co.getD i none).isSome =
          (([some 250, none] : List Coord).getD i none).isSome) :=
  C4_nan_propagation [some 0, none] [none, some 1] [none, some 50]
    [some 250, none] 50 250 1 1
    (by with_unfolding_all decide) rfl (by with_unfolding_all decide)
    (by with_unfolding_all decide) rfl (by with_unfolding_all decide)
    one_pos one_pos

/-! ## Grid-point membership matrices (spec sections 4.3 and 4.7) -/

/-- Minimum of an integer list (0 for the empty list, which the source never
passes). -/
def listMin (l : List ℤ) : ℤ :=
  match l with
  | [] => 0
  | a :: t => t.foldl min a

/-- Maximum of an integer list (0 for the empty list, which the source never
passes). -/
def listMax (l : List ℤ) : ℤ :=
  match l with
  | [] => 0
  | a :: t => t.foldl max a

theorem foldl_min_le_init (t : List ℤ) (a : ℤ) : t.foldl min a ≤ a := by
  induction t generalizing a with
  | nil => exact le_refl a
  | cons b t' ih =>
    calc t'.foldl min (min a b) ≤ min a b := ih (min a b)
      _ ≤ a := min_le_left _ _

theorem foldl_min_le_mem {t : List ℤ} {x : ℤ} (a : ℤ) (hx : x ∈ t) :
    t.foldl min a ≤ x := by
  induction t generalizing a with
  | nil => simp at hx
  | cons b t' ih =>
    rcases List.mem_cons.mp hx with rfl | hx'
    · calc t'.foldl min (min a x) ≤ min a x := foldl_min_le_init _ _
        _ ≤ x := min_le_right _ _
    · exact ih _ hx'

theorem init_le_foldl_max (t : List ℤ) (a : ℤ) : a ≤ t.foldl max a := by
  induction t generalizing a with
  | nil => exact le_refl a
  | cons b t' ih =>
    calc a ≤ max a b := le_max_left _ _
      _ ≤ t'.foldl max (max a b) := ih (max a b)

theorem mem_le_foldl_max {t : List ℤ} {x : ℤ} (a : ℤ) (hx : x ∈ t) :
    x ≤ t.foldl max a := by
  induction t generalizing a with
  | nil => simp at hx
  | cons b t' ih =>
    rcases List.mem_cons.mp hx with rfl | hx'
    · calc x ≤ max a x := le_max_right _ _
        _ ≤ t'.foldl max (max a x) := init_le_foldl_max _ _
    · exact ih _ hx'

theorem listMin_le {l : List ℤ} {x : ℤ} (hx : x ∈ l) : listMin l ≤ x := by
  cases l with
  | nil => simp at hx
  | cons a t =>
    rcases List.mem_cons.mp hx with rfl | hx'
    · exact foldl_min_le_init t x
    · exact foldl_min_le_mem a hx'

theorem le_listMax {l : List ℤ} {x : ℤ} (hx : x ∈ l) : x ≤ listMax l := by
  cases l with
  | nil => simp at hx
  | cons a t =>
    rcases List.mem_cons.mp hx with rfl | hx'
    · exact init_le_foldl_max t x
    · exact mem_le_foldl_max a hx'

/-- Modelled from the spec: `polygons.grid_points_in_poly_to_binary_matrix`
(not among the sources), pinned by the reference fixture of
`polygons_test.py`: the dense boolean matrix covers the bounding box of the
member cells padded by one cell on every side, and the returned offset is
(minimum row - 1, minimum column - 1). -/
def grid_points_in_poly_to_binary_matrix
    (row_indices column_indices : List ℤ) :
    List (List Bool) × ℤ × ℤ :=
  let first_row_index := listMin row_indices - 1
  let first_column_index := listMin column_indices - 1
  let num_rows := (listMax row_indices - listMin row_indices + 3).toNat
  let num_columns :=
    (listMax column_indices - listMin column_indices + 3).toNat
  let pairs := row_indices.zip column_indices
  ((List.range num_rows).map fun i : ℕ =>
     (List.range num_columns).map fun j : ℕ =>
       decide ((first_row_index + (i : ℤ),
                first_column_index + (j : ℤ)) ∈ pairs),
   first_row_index, first_column_index)

/-- Modelled from the spec: the cell-listing step of
`polygons._binary_matrix_to_grid_points_in_poly` (not among the sources):
the row-major list of True-cell coordinates of a boolean matrix
(numpy.where semantics), shifted by the matrix offset. -/
def binaryMatrixPairs (binary_matrix : List (List Bool))
    (first_row_index first_column_index : ℤ) : List (ℤ × ℤ) :=
  (List.range binary_matrix.length).flatMap fun i : ℕ =>
    (((List.range ((binary_matrix.getD i []).length)).filter fun j : ℕ =>
        (binary_matrix.getD i []).getD j false).map fun j : ℕ =>
      (first_row_index + (i : ℤ), first_column_index + (j : ℤ)))

/-- Modelled from the spec: `polygons._binary_matrix_to_grid_points_in_poly`
(not among the sources): returns the row and column arrays of the True cells
of the matrix in row-major order, shifted by the matrix offset. -/
def binary_matrix_to_grid_points_in_poly (binary_matrix : List (List Bool))
    (first_row_index first_column_index : ℤ) : List ℤ × List ℤ :=
  ((binaryMatrixPairs binary_matrix first_row_index first_column_index).map
     Prod.fst,
   (binaryMatrixPairs binary_matrix first_row_index first_column_index).map
     Prod.snd)

theorem zip_map_fst_snd {α β : Type} (l : List (α × β)) :
    (l.map Prod.fst).zip (l.map Prod.snd) = l := by
  induction l with
  | nil => rfl
  | cons a t ih => simp [ih]

theorem getD_map_range {α : Type} (f : ℕ → α) {n i : ℕ} (d : α)
    (h : i < n) : ((List.range n).map f).getD i d = f i := by
  rw [List.getD_eq_getElem _ _ (by simpa using h)]
  simp

/-- Row-index fixture of `polygons_test.py` for the membership matrix. -/
def ROW_INDICES_IN_POLYGON : List ℤ :=
  [101, 101, 102, 102, 102, 102, 103, 103, 103, 104]

/-- Column-index fixture of `polygons_test.py` for the membership matrix. -/
def COLUMN_INDICES_IN_POLYGON : List ℤ :=
  [501, 502, 501, 502, 503, 504, 502, 503, 504, 504]

theorem mem_binary_matrix_pairs (m : List (List Bool)) (fr fc a b : ℤ) :
    ((a, b) ∈
      ((binary_matrix_to_grid_points_in_poly m fr fc).1.zip
        (binary_matrix_to_grid_points_in_poly m fr fc).2)) ↔
    ∃ i : ℕ, i < m.length ∧ ∃ j : ℕ, j < (m.getD i []).length ∧
      (m.getD i []).getD j false = true ∧ a = fr + i ∧ b = fc + j := by
  rw [binary_matrix_to_grid_points_in_poly, zip_map_fst_snd,
      binaryMatrixPairs]
  simp only [List.mem_flatMap, List.mem_map, List.mem_filter, List.mem_range,
    Prod.mk.injEq, decide_eq_true_eq]
  constructor
  · rintro ⟨i, hi, j, ⟨hj, hentry⟩, ha, hb⟩
    exact ⟨i, hi, j, hj, hentry, ha.symm, hb.symm⟩
  · rintro ⟨i, hi, j, hj, hentry, ha, hb⟩
    exact ⟨i, hi, j, ⟨hj, hentry⟩, ha.symm, hb.symm⟩

/-- C5: converting a finite cell set to the dense
boolean-matrix-plus-offset representation and back reproduces exactly the
same set of (row, column) pairs; and on the reference fixture of
`polygons_test.py` the round trip reproduces the original arrays exactly. -/
theorem C5_binary_matrix_roundtrip :
    (∀ (rows cols : List ℤ) (a b : ℤ),
      ((a, b) ∈
        ((binary_matrix_to_grid_points_in_poly
            (grid_points_in_poly_to_binary_matrix rows cols).1
            (grid_points_in_poly_to_binary_matrix rows cols).2.1
            (grid_points_in_poly_to_binary_matrix rows cols).2.2).1.zip
          (binary_matrix_to_grid_points_in_poly
            (grid_points_in_poly_to_binary_matrix rows cols).1
            (grid_points_in_poly_to_binary_matrix rows cols).2.1
            (grid_points_in_poly_to_binary_matrix rows cols).2.2).2)) ↔
      (a, b) ∈ rows.zip cols) ∧
    binary_matrix_to_grid_points_in_poly
      (grid_points_in_poly_to_binary_matrix
        ROW_INDICES_IN_POLYGON COLUMN_INDICES_IN_POLYGON).1
      (grid_points_in_poly_to_binary_matrix
        ROW_INDICES_IN_POLYGON COLUMN_INDICES_IN_POLYGON).2.1
      (grid_points_in_poly_to_binary_matrix
        ROW_INDICES_IN_POLYGON COLUMN_INDICES_IN_POLYGON).2.2 =
      (ROW_INDICES_IN_POLYGON, COLUMN_INDICES_IN_POLYGON) := by
  constructor
  · intro rows cols a b
    rw [mem_binary_matrix_pairs]
    simp only [grid_points_in_poly_to_binary_matrix]
    constructor
    · rintro ⟨i, hi, j, hj, hentry, rfl, rfl⟩
      rw [List.length_map, List.length_range] at hi
      rw [getD_map_range _ _ hi] at hj hentry
      rw [List.length_map, List.length_range] at hj
      rw [getD_map_range _ _ hj] at hentry
      exact of_decide_eq_true hentry
    · intro hmem
      have ha : a ∈ rows := (List.of_mem_zip hmem).1
      have hb : b ∈ cols := (List.of_mem_zip hmem).2
      have hmina : listMin rows ≤ a := listMin_le ha
      have hmaxa : a ≤ listMax rows := le_listMax ha
      have hminb : listMin cols ≤ b := listMin_le hb
      have hmaxb : b ≤ listMax cols := le_listMax hb
      refine ⟨(a - (listMin rows - 1)).toNat, ?_,
              (b - (listMin cols - 1)).toNat, ?_, ?_, ?_, ?_⟩
      · rw [List.length_map, List.length_range, Int.lt_toNat,
            Int.toNat_of_nonneg (by linarith)]
        linarith
      · rw [getD_map_range _ _ (by
            rw [Int.lt_toNat, Int.toNat_of_nonneg (by linarith)]; linarith),
          List.length_map, List.length_range, Int.lt_toNat,
          Int.toNat_of_nonneg (by linarith)]
        linarith
      · rw [getD_map_range _ _ (by
            rw [Int.lt_toNat, Int.toNat_of_nonneg (by linarith)]; linarith),
          getD_map_range _ _ (by
            rw [Int.lt_toNat, Int.toNat_of_nonneg (by linarith)]; linarith)]
        rw [Int.toNat_of_nonneg (by linarith),
            Int.toNat_of_nonneg (by linarith)]
        have h1 : listMin rows - 1 + (a - (listMin rows - 1)) = a := by ring
        have h2 : listMin cols - 1 + (b - (listMin cols - 1)) = b := by ring
        rw [h1, h2]
        exact decide_eq_true hmem
      · rw [Int.toNat_of_nonneg (by linarith)]; ring
      · rw [Int.toNat_of_nonneg (by linarith)]; ring
  · decide

/-- C6 counterexample: on the reference fixture (rows 101 to 104, columns
501 to 504), `grid_points_in_poly_to_binary_matrix` returns row offset 100
and a 6-row matrix, while the bounding box of the indices starts at row 101
and spans only 4 rows: the returned offset is not the box minimum and the
matrix is not sized to the box. -/
theorem C6_to_binary_matrix_cex :
    (grid_points_in_poly_to_binary_matrix
        ROW_INDICES_IN_POLYGON COLUMN_INDICES_IN_POLYGON).2.1 = 100 ∧
    listMin ROW_INDICES_IN_POLYGON = 101 ∧
    ¬ ((grid_points_in_poly_to_binary_matrix
          ROW_INDICES_IN_POLYGON COLUMN_INDICES_IN_POLYGON).2.1 =
        listMin ROW_INDICES_IN_POLYGON) ∧
    (grid_points_in_poly_to_binary_matrix
        ROW_INDICES_IN_POLYGON COLUMN_INDICES_IN_POLYGON).1.length = 6 ∧
    listMax ROW_INDICES_IN_POLYGON - listMin ROW_INDICES_IN_POLYGON + 1 = 4 := by
  decide

/-- C6 (amended): for every non-empty equal-length pair of index arrays,
`grid_points_in_poly_to_binary_matrix` allocates a boolean matrix sized to
the bounding box of the indices padded by one cell on every side, marks the
member cells True, and records (minimum row - 1, minimum column - 1) as the
returned offset. -/
theorem C6_to_binary_matrix_amended (rows cols : List ℤ) (hne : rows ≠ [])
    (hlen : rows.length = cols.length) :
    (grid_points_in_poly_to_binary_matrix rows cols).2.1 =
      listMin rows - 1 ∧
    (grid_points_in_poly_to_binary_matrix rows cols).2.2 =
      listMin cols - 1 ∧
    (grid_points_in_poly_to_binary_matrix rows cols).1.length =
      (listMax rows - listMin rows + 3).toNat ∧
    (∀ r ∈ (grid_points_in_poly_to_binary_matrix rows cols).1,
      r.length = (listMax cols - listMin cols + 3).toNat) ∧
    ∀ i j : ℕ, i < (listMax rows - listMin rows + 3).toNat →
      j < (listMax cols - listMin cols + 3).toNat →
      ((((grid_points_in_poly_to_binary_matrix rows cols).1.getD i []).getD
          j false) = true ↔
        (listMin rows - 1 + (i : ℤ), listMin cols - 1 + (j : ℤ)) ∈
          rows.zip cols) := by
  refine ⟨rfl, rfl, ?_, ?_, ?_⟩
  · simp [grid_points_in_poly_to_binary_matrix]
  · intro r hr
    simp only [grid_points_in_poly_to_binary_matrix, List.mem_map,
      List.mem_range] at hr
    obtain ⟨i, _, rfl⟩ := hr
    simp
  · intro i j hi hj
    simp only [grid_points_in_poly_to_binary_matrix]
    rw [getD_map_range _ _ hi, getD_map_range _ _ hj, decide_eq_true_eq]

/-- C6 witness for the amended theorem: instantiation at the reference
fixture of `polygons_test.py`. -/
theorem C6_to_binary_matrix_amended_witness :
    (grid_points_in_poly_to_binary_matrix
        ROW_INDICES_IN_POLYGON COLUMN_INDICES_IN_POLYGON).2.1 =
      listMin ROW_INDICES_IN_POLYGON - 1 ∧
    (grid_points_in_poly_to_binary_matrix
        ROW_INDICES_IN_POLYGON COLUMN_INDICES_IN_POLYGON).2.2 =
      listMin COLUMN_INDICES_IN_POLYGON - 1 ∧
    (grid_points_in_poly_to_binary_matrix
        ROW_INDICES_IN_POLYGON COLUMN_INDICES_IN_POLYGON).1.length =
      (listMax ROW_INDICES_IN_POLYGON - listMin ROW_INDICES_IN_POLYGON +
        3).toNat ∧
    (∀ r ∈ (grid_points_in_poly_to_binary_matrix
        ROW_INDICES_IN_POLYGON COLUMN_INDICES_IN_POLYGON).1,
      r.length = (listMax COLUMN_INDICES_IN_POLYGON -
        listMin COLUMN_INDICES_IN_POLYGON + 3).toNat) ∧
    ∀ i j : ℕ,
      i < (listMax ROW_INDICES_IN_POLYGON - listMin ROW_INDICES_IN_POLYGON +
        3).toNat →
      j < (listMax COLUMN_INDICES_IN_POLYGON -
        listMin COLUMN_INDICES_IN_POLYGON + 3).toNat →
      ((((grid_points_in_poly_to_binary_matrix
            ROW_INDICES_IN_POLYGON COLUMN_INDICES_IN_POLYGON).1.getD
          i []).getD j false) = true ↔
        (listMin ROW_INDICES_IN_POLYGON - 1 + (i : ℤ),
         listMin COLUMN_INDICES_IN_POLYGON - 1 + (j : ℤ)) ∈
          ROW_INDICES_IN_POLYGON.zip COLUMN_INDICES_IN_POLYGON) :=
  C6_to_binary_matrix_amended ROW_INDICES_IN_POLYGON
    COLUMN_INDICES_IN_POLYGON (by decide) rfl

/-! ## Redundant-vertex removal (spec section 4.3 step 3) -/

/-- Modelled from the spec: the scanning loop of
`polygons._remove_redundant_vertices` (not among the sources; spec section
4.3 pins the step by the documented non-redundant reference output of
`polygons_test.py`, which this reconstruction reproduces exactly): vertices
are accumulated in order, and when a vertex repeats one already accumulated,
the accumulator is truncated back to (and including) the first occurrence,
deleting the redundant back-and-forth loop. -/
def removeRedundantAux : List (ℚ × ℚ) → List (ℚ × ℚ) → List (ℚ × ℚ)
  | acc, [] => acc
  | acc, v :: rest =>
    if v ∈ acc then
      removeRedundantAux (acc.take (acc.indexOf v + 1)) rest
    else removeRedundantAux (acc ++ [v]) rest

/-- The scan runs over all vertices but the last; the last (closing) vertex
of the input is then appended unchanged. -/
def removeRedundantList (l : List (ℚ × ℚ)) : List (ℚ × ℚ) :=
  match l with
  | [] => []
  | a :: t =>
    removeRedundantAux [] ((a :: t).dropLast) ++
      [(a :: t).getLast (List.cons_ne_nil a t)]

/-- Modelled from the spec: `polygons._remove_redundant_vertices` (not among
the sources) on the paired row and column arrays. -/
def remove_redundant_vertices (vertex_rows vertex_columns : List ℚ) :
    List ℚ × List ℚ :=
  let out := removeRedundantList (vertex_rows.zip vertex_columns)
  (out.map Prod.fst, out.map Prod.snd)

theorem removeRedundantAux_nodup (l acc : List (ℚ × ℚ)) (h : acc.Nodup) :
    (removeRedundantAux acc l).Nodup := by
  induction l generalizing acc with
  | nil => exact h
  | cons v rest ih =>
    by_cases hv : v ∈ acc
    · rw [removeRedundantAux, if_pos hv]
      exact ih _ ((List.take_sublist _ _).nodup h)
    · rw [removeRedundantAux, if_neg hv]
      refine ih _ ?_
      rw [List.nodup_append]
      exact ⟨h, List.nodup_singleton v, by simpa [List.disjoint_singleton]⟩

theorem removeRedundantAux_eq_of_nodup (l acc : List (ℚ × ℚ))
    (h : (acc ++ l).Nodup) : removeRedundantAux acc l = acc ++ l := by
  induction l generalizing acc with
  | nil => simp [removeRedundantAux]
  | cons v rest ih =>
    have hv : v ∉ acc := by
      intro hmem
      rcases List.nodup_append.mp h with ⟨_, _, hdisj⟩
      exact hdisj hmem (List.mem_cons_self v rest)
    rw [removeRedundantAux, if_neg hv, ih (acc ++ [v]) (by simpa using h)]
    simp

theorem removeRedundantList_eq (m : List (ℚ × ℚ)) (hm : m ≠ []) :
    removeRedundantList m =
      removeRedundantAux [] m.dropLast ++ [m.getLast hm] := by
  cases m with
  | nil => exact absurd rfl hm
  | cons a t => rfl

theorem removeRedundantList_idem (l : List (ℚ × ℚ)) :
    removeRedundantList (removeRedundantList l) = removeRedundantList l := by
  cases l with
  | nil => rfl
  | cons a t =>
    rw [removeRedundantList_eq (a :: t) (List.cons_ne_nil a t)]
    have hA : (removeRedundantAux [] ((a :: t).dropLast)).Nodup :=
      removeRedundantAux_nodup _ _ List.nodup_nil
    rw [removeRedundantList_eq _ (by simp)]
    rw [List.dropLast_concat, List.getLast_concat]
    rw [removeRedundantAux_eq_of_nodup _ [] (by simpa using hA)]
    simp

/-- Row fixture with redundant vertices (`polygons_test.py`). -/
def VERTEX_ROWS_GRID_CELL_EDGES_REDUNDANT : List ℚ :=
  [201/2, 205/2, 205/2, 207/2, 207/2, 207/2, 207/2, 207/2, 209/2, 209/2,
   205/2, 207/2, 209/2, 203/2, 203/2, 201/2, 201/2]

/-- Column fixture with redundant vertices (`polygons_test.py`). -/
def VERTEX_COLUMNS_GRID_CELL_EDGES_REDUNDANT : List ℚ :=
  [1001/2, 1001/2, 1003/2, 1003/2, 1007/2, 1005/2, 1003/2, 1007/2, 1007/2,
   1009/2, 1009/2, 1009/2, 1009/2, 1009/2, 1005/2, 1005/2, 1001/2]

/-- Non-redundant row fixture (`polygons_test.py`). -/
def VERTEX_ROWS_GRID_CELL_EDGES_NON_REDUNDANT : List ℚ :=
  [201/2, 205/2, 205/2, 207/2, 207/2, 209/2, 209/2, 203/2, 203/2, 201/2,
   201/2]

/-- Non-redundant column fixture (`polygons_test.py`). -/
def VERTEX_COLUMNS_GRID_CELL_EDGES_NON_REDUNDANT : List ℚ :=
  [1001/2, 1001/2, 1003/2, 1003/2, 1007/2, 1007/2, 1009/2, 1009/2, 1005/2,
   1005/2, 1001/2]

set_option maxRecDepth 20000 in
/-- C7: the redundant-vertex-removal step is idempotent on every vertex
sequence, and on the documented redundant reference input it yields exactly
the documented non-redundant output. -/
theorem C7_remove_redundant_idempotent :
    (∀ vertex_rows vertex_columns : List ℚ,
      remove_redundant_vertices
        (remove_redundant_vertices vertex_rows vertex_columns).1
        (remove_redundant_vertices vertex_rows vertex_columns).2 =
      remove_redundant_vertices vertex_rows vertex_columns) ∧
    remove_redundant_vertices VERTEX_ROWS_GRID_CELL_EDGES_REDUNDANT
      VERTEX_COLUMNS_GRID_CELL_EDGES_REDUNDANT =
      (VERTEX_ROWS_GRID_CELL_EDGES_NON_REDUNDANT,
       VERTEX_COLUMNS_GRID_CELL_EDGES_NON_REDUNDANT) := by
  constructor
  · intro vertex_rows vertex_columns
    conv_lhs => rw [remove_redundant_vertices]
    rw [remove_redundant_vertices, zip_map_fst_snd, removeRedundantList_idem]
  · with_unfolding_all decide

/-! ## Counterclockwise vertex ordering -/

/-- Cross term of one adjacent vertex pair in the shoelace formula. -/
def cross (p q : ℚ × ℚ) : ℚ := p.1 * q.2 - q.1 * p.2

/-- Twice the signed area of the ring traced by the vertex list (shoelace
formula over adjacent pairs); positive for counterclockwise closed rings. -/
def shoelaceSum : List (ℚ × ℚ) → ℚ
  | p :: q :: rest => cross p q + shoelaceSum (q :: rest)
  | _ => 0

/-- Modelled from the spec: `polygons.sort_vertices_counterclockwise` (not
among the sources, pinned by the `polygons_test.py` tests): a ring with
negative signed area (clockwise) is reversed, a counterclockwise ring is
returned unchanged. -/
def sort_vertices_counterclockwise (vertex_x_coords vertex_y_coords : List ℚ) :
    List ℚ × List ℚ :=
  if shoelaceSum (vertex_x_coords.zip vertex_y_coords) < 0 then
    (vertex_x_coords.reverse, vertex_y_coords.reverse)
  else (vertex_x_coords, vertex_y_coords)

theorem shoelaceSum_append_singleton (l : List (ℚ × ℚ)) (a : ℚ × ℚ)
    (hl : l ≠ []) :
    shoelaceSum (l ++ [a]) = shoelaceSum l + cross (l.getLastD (0, 0)) a := by
  induction l with
  | nil => exact absurd rfl hl
  | cons p t ih =>
    cases t with
    | nil => simp [shoelaceSum]
    | cons q l2 =>
      have h1 : (p :: q :: l2) ++ [a] = p :: ((q :: l2) ++ [a]) := rfl
      rw [h1]
      have h2 : shoelaceSum (p :: ((q :: l2) ++ [a])) =
          cross p q + shoelaceSum ((q :: l2) ++ [a]) := rfl
      rw [h2, ih (List.cons_ne_nil q l2)]
      have h3 : shoelaceSum (p :: q :: l2) =
          cross p q + shoelaceSum (q :: l2) := rfl
      have h4 : (p :: q :: l2).getLastD (0, 0) =
          (q :: l2).getLastD (0, 0) := by
        simp [List.getLastD_eq_getLast?]
      rw [h3, h4]
      ring

theorem shoelaceSum_reverse (l : List (ℚ × ℚ)) :
    shoelaceSum l.reverse = - shoelaceSum l := by
  induction l with
  | nil => simp [shoelaceSum]
  | cons p t ih =>
    cases t with
    | nil => simp [shoelaceSum]
    | cons q l2 =>
      have hrev : (p :: q :: l2).reverse = ((q :: l2).reverse) ++ [p] := by
        simp
      rw [hrev, shoelaceSum_append_singleton _ _ (by simp), ih]
      have hlast : ((q :: l2).reverse).getLastD (0, 0) = q := by
        rw [List.getLastD_eq_getLast?, List.getLast?_reverse]
        rfl
      rw [hlast]
      have h3 : shoelaceSum (p :: q :: l2) =
          cross p q + shoelaceSum (q :: l2) := rfl
      rw [h3]
      simp only [cross]
      ring

theorem reverse_zip_reverse {α β : Type} (xs : List α) (ys : List β)
    (h : xs.length = ys.length) :
    xs.reverse.zip ys.reverse = (xs.zip ys).reverse := by
  induction xs generalizing ys with
  | nil => simp
  | cons a xs' ih =>
    cases ys with
    | nil => simp at h
    | cons b ys' =>
      simp only [List.length_cons, Nat.succ.injEq] at h
      rw [List.reverse_cons, List.reverse_cons, List.zip_append (by simp [h]),
          ih ys' h]
      simp

/-- C9: `sort_vertices_counterclockwise` returns a counterclockwise closed
vertex sequence unchanged, and maps the clockwise reversal of such a
sequence back to the counterclockwise ordering; hence both calls agree. -/
theorem C9_sort_vertices_counterclockwise (xs ys : List ℚ)
    (hlen : xs.length = ys.length)
    (hccw : 0 < shoelaceSum (xs.zip ys)) :
    sort_vertices_counterclockwise xs ys = (xs, ys) ∧
    sort_vertices_counterclockwise xs.reverse ys.reverse = (xs, ys) := by
  constructor
  · rw [sort_vertices_counterclockwise,
        if_neg (not_lt.mpr (le_of_lt hccw))]
  · rw [sort_vertices_counterclockwise, reverse_zip_reverse xs ys hlen,
        shoelaceSum_reverse, if_pos (by linarith)]
    simp

/-- C9 witness: the counterclockwise 9-vertex fixture of
`polygons_test.py` (VERTEX_X_METRES_LONG, VERTEX_Y_METRES_LONG). -/
theorem C9_sort_vertices_counterclockwise_witness :
    sort_vertices_counterclockwise [0, 2, 2, 4, 4, 1, 1, 0, 0]
      [0, 0, -1, -1, 4, 4, 2, 2, 0] =
      ([0, 2, 2, 4, 4, 1, 1, 0, 0], [0, 0, -1, -1, 4, 4, 2, 2, 0]) ∧
    sort_vertices_counterclockwise
      ([0, 2, 2, 4, 4, 1, 1, 0, 0] : List ℚ).reverse
      ([0, 0, -1, -1, 4, 4, 2, 2, 0] : List ℚ).reverse =
      ([0, 2, 2, 4, 4, 1, 1, 0, 0], [0, 0, -1, -1, 4, 4, 2, 2, 0]) :=
  C9_sort_vertices_counterclockwise [0, 2, 2, 4, 4, 1, 1, 0, 0]
    [0, 0, -1, -1, 4, 4, 2, 2, 0] rfl (by with_unfolding_all decide)

/-! ## Polygon buffering with mitered corners (spec section 4.6) -/

/-- An axis-parallel offset line: the dilated image of one rectilinear
polygon edge. -/
inductive OffsetLine
  | vertAt (x : ℚ)
  | horizAt (y : ℚ)
deriving DecidableEq

/-- Modelled from the spec: the outward offset of one axis-aligned edge by
the buffer distance.  The outward side is fixed by the ring orientation: a
clockwise ring (negative shoelace sum) keeps its interior to the right of
travel, so outward is to the left, and conversely. -/
def offsetEdge (p q : ℚ × ℚ) (d : ℚ) (cw : Bool) : Option OffsetLine :=
  if p.2 = q.2 ∧ p.1 ≠ q.1 then
    let s : ℚ := if p.1 < q.1 then 1 else -1
    some (OffsetLine.horizAt (p.2 + (if cw then s * d else -(s * d))))
  else if p.1 = q.1 ∧ p.2 ≠ q.2 then
    let s : ℚ := if p.2 < q.2 then 1 else -1
    some (OffsetLine.vertAt (p.1 + (if cw then -(s * d) else s * d)))
  else none

/-- Mitered corner: intersection of two consecutive perpendicular offset
lines. -/
def intersectLines : OffsetLine → OffsetLine → Option (ℚ × ℚ)
  | OffsetLine.vertAt x, OffsetLine.horizAt y => some (x, y)
  | OffsetLine.horizAt y, OffsetLine.vertAt x => some (x, y)
  | _, _ => none

/-- Modelled from the spec: mitered outward dilation of one closed
rectilinear ring by `d` (spec section 4.6; the spec restricts mitred
buffering to the rectilinear radar-grid polygons, and non-rectilinear or
degenerate input yields `none`, a raised geometry error). -/
def bufferRing (xs ys : List ℚ) (d : ℚ) : Option (List ℚ × List ℚ) :=
  let ring := xs.zip ys
  let opn := ring.dropLast
  let n := opn.length
  if n < 3 then none
  else if ring.getLastD (0, 0) ≠ ring.headD (0, 0) then none
  else
    let cw : Bool := decide (shoelaceSum ring < 0)
    ((List.range n).mapM fun i =>
        offsetEdge (opn.getD i (0, 0)) (opn.getD ((i + 1) % n) (0, 0))
          d cw).bind
      fun offs =>
        ((List.range n).mapM fun i =>
            intersectLines (offs.getD ((i + n - 1) % n) (OffsetLine.vertAt 0))
              (offs.getD i (OffsetLine.vertAt 0))).map
          fun verts =>
            (verts.map Prod.fst ++ [(verts.headD (0, 0)).1],
             verts.map Prod.snd ++ [(verts.headD (0, 0)).2])

/-- Modelled from the spec: `polygons.buffer_simple_polygon` (not among the
sources): with no minimum distance it returns the single ring dilated
outward by the maximum distance and no holes; with a minimum distance it
returns the annulus (maximum-distance ring as exterior, minimum-distance
ring as hole).  Only `preserve_angles = true` (mitered corners) is in the
modelled scope. -/
def buffer_simple_polygon (vertex_x_metres vertex_y_metres : List ℚ)
    (min_buffer_dist_metres : Option ℚ) (max_buffer_dist_metres : ℚ)
    (preserve_angles : Bool) : Option VertexDict :=
  if preserve_angles = false then none
  else
    match min_buffer_dist_metres with
    | none =>
      (bufferRing vertex_x_metres vertex_y_metres
        max_buffer_dist_metres).map fun r =>
          { exterior_x := r.1, exterior_y := r.2
            hole_x_list := [], hole_y_list := [] }
    | some min_dist =>
      (bufferRing vertex_x_metres vertex_y_metres
        max_buffer_dist_metres).bind fun outer =>
        (bufferRing vertex_x_metres vertex_y_metres min_dist).map fun inner =>
          { exterior_x := outer.1, exterior_y := outer.2
            hole_x_list := [inner.1], hole_y_list := [inner.2] }

set_option maxRecDepth 20000 in
/-- C8: buffering the square exterior (0,0),(0,10),(10,10),(10,0),(0,0)
with `max_dist = 2.5`, no minimum distance and `preserve_angles = true`
yields exactly the single mitered ring
(-2.5,-2.5),(-2.5,12.5),(12.5,12.5),(12.5,-2.5),(-2.5,-2.5) and no holes. -/
theorem C8_buffer_simple_polygon_small :
    buffer_simple_polygon [0, 0, 10, 10, 0] [0, 10, 10, 0, 0] none (5/2)
      true =
      some { exterior_x := [-(5/2), -(5/2), 25/2, 25/2, -(5/2)]
             exterior_y := [-(5/2), 25/2, 25/2, -(5/2), -(5/2)]
             hole_x_list := [], hole_y_list := [] } := by
  with_unfolding_all decide

/-! ## probSevere vertex fixing (longest-ring extraction) -/

/-- Modelled from the spec: `polygons._get_longest_inner_list` (not among
the sources): the first inner list of maximal length (Python max
semantics). -/
def get_longest_inner_list {α : Type} (list_of_lists : List (List α)) :
    List α :=
  match list_of_lists with
  | [] => []
  | a :: t =>
    t.foldl (fun best cur => if best.length < cur.length then cur else best) a

/-- Pack a pair of coordinate arrays into one array of optional points: an
entry is a point exactly when both coordinates are non-NaN. -/
def zipCoords (xs ys : List Coord) : List (Option (ℚ × ℚ)) :=
  (xs.zip ys).map fun p =>
    match p with
    | (some a, some b) => some (a, b)
    | _ => none

/-- Modelled from the spec:
`polygons._get_longest_vertex_arrays_without_nan` (not among the sources):
split the composite arrays on the NaN sentinels and keep the longest
NaN-free ring. -/
def get_longest_vertex_arrays_without_nan (xs ys : List Coord) :
    List ℚ × List ℚ :=
  let ring := get_longest_inner_list (splitOnNone (zipCoords xs ys))
  (ring.map Prod.fst, ring.map Prod.snd)

/-- The eight compass directions of spec section 4.3 step 2. -/
inductive Direction
  | up | down | toRight | toLeft | upRight | upLeft | downRight | downLeft
deriving DecidableEq

/-- Modelled from the spec: `polygons._get_direction_of_vertex_pair` (not
among the sources): classification of a consecutive vertex pair by the
signs of the row and column deltas (rows increase downward). -/
def get_direction_of_vertex_pair
    (first_row second_row first_column second_column : ℚ) :
    Option Direction :=
  if second_row < first_row ∧ second_column = first_column then
    some Direction.up
  else if first_row < second_row ∧ second_column = first_column then
    some Direction.down
  else if second_row = first_row ∧ first_column < second_column then
    some Direction.toRight
  else if second_row = first_row ∧ second_column < first_column then
    some Direction.toLeft
  else if second_row < first_row ∧ first_column < second_column then
    some Direction.upRight
  else if second_row < first_row ∧ second_column < first_column then
    some Direction.upLeft
  else if first_row < second_row ∧ first_column < second_column then
    some Direction.downRight
  else if first_row < second_row ∧ second_column < first_column then
    some Direction.downLeft
  else none

/-- The cell-corner offset used for the cell-edge vertices emitted for a
step in the given direction. -/
def cornerOffset : Direction → ℚ × ℚ
  | Direction.up => (1/2, 1/2)
  | Direction.down => (-(1/2), -(1/2))
  | Direction.toRight => (1/2, -(1/2))
  | Direction.toLeft => (-(1/2), 1/2)
  | Direction.upRight => (1/2, 1/2)
  | Direction.upLeft => (1/2, -(1/2))
  | Direction.downRight => (-(1/2), 1/2)
  | Direction.downLeft => (-(1/2), -(1/2))

/-- Modelled from the spec: `polygons._vertices_from_grid_points_to_edges`
(not among the sources): each step between consecutive grid points is
translated into a pair of cell-edge vertices offset by half a cell in each
coordinate, chosen by the step direction.  The spec does not pin the
per-direction vertex choice, so one fixed deterministic choice is used; the
claim settled over this definition does not depend on that choice. -/
def vertices_from_grid_points_to_edges (vertex_rows vertex_columns : List ℚ) :
    List ℚ × List ℚ :=
  let pts := vertex_rows.zip vertex_columns
  let segs := (pts.zip pts.tail).flatMap fun pq =>
    match get_direction_of_vertex_pair pq.1.1 pq.2.1 pq.1.2 pq.2.2 with
    | some d =>
      [(pq.1.1 + (cornerOffset d).1, pq.1.2 + (cornerOffset d).2),
       (pq.2.1 + (cornerOffset d).1, pq.2.2 + (cornerOffset d).2)]
    | none => []
  (segs.map Prod.fst, segs.map Prod.snd)

/-- Modelled from the spec: `polygons.fix_probsevere_vertices` (not among
the sources): keep only the longest NaN-free ring of the composite input,
convert its grid-point path to cell-edge vertices, and remove redundant
vertices. -/
def fix_probsevere_vertices (vertex_rows vertex_columns : List Coord) :
    List ℚ × List ℚ :=
  let lr := get_longest_vertex_arrays_without_nan vertex_rows vertex_columns
  let edges := vertices_from_grid_points_to_edges lr.1 lr.2
  remove_redundant_vertices edges.1 edges.2

theorem splitOnNone_map_some {α : Type} (l : List α) :
    splitOnNone (l.map some) = [l] := by
  induction l with
  | nil => rfl
  | cons a t ih => simp [splitOnNone, ih]

theorem zipCoords_map_some (xs ys : List ℚ) :
    zipCoords (xs.map some) (ys.map some) = (xs.zip ys).map some := by
  rw [zipCoords, List.zip_map, List.map_map]
  rfl

theorem get_longest_of_ring (r : List (ℚ × ℚ)) :
    get_longest_vertex_arrays_without_nan
      ((r.map Prod.fst).map some) ((r.map Prod.snd).map some) =
    (r.map Prod.fst, r.map Prod.snd) := by
  rw [get_longest_vertex_arrays_without_nan, zipCoords_map_some,
      zip_map_fst_snd, splitOnNone_map_some]
  rfl

theorem get_longest_vertex_arrays_without_nan_map_some (xs ys : List Coord) :
    get_longest_vertex_arrays_without_nan
      ((get_longest_vertex_arrays_without_nan xs ys).1.map some)
      ((get_longest_vertex_arrays_without_nan xs ys).2.map some) =
    get_longest_vertex_arrays_without_nan xs ys :=
  get_longest_of_ring
    (get_longest_inner_list (splitOnNone (zipCoords xs ys)))

/-- C10: `fix_probsevere_vertices` on a composite (possibly multi-ring)
vertex sequence operates only on the longest NaN-free ring, silently
discarding every other ring: it returns exactly the same cell-edge vertex
arrays as it would for that longest ring given alone, and the call is a
total function (no error is raised for multi-ring input). -/
theorem C10_fix_probsevere_longest_ring
    (vertex_rows vertex_columns : List Coord) :
    fix_probsevere_vertices vertex_rows vertex_columns =
      fix_probsevere_vertices
        ((get_longest_vertex_arrays_without_nan
            vertex_rows vertex_columns).1.map some)
        ((get_longest_vertex_arrays_without_nan
            vertex_rows vertex_columns).2.map some) := by
  conv_rhs =>
    rw [fix_probsevere_vertices,
        get_longest_vertex_arrays_without_nan_map_some]
  rfl

end GewitterGefahr
